import Mathlib

/-!
Verification of the download core of `download_vrs.py` (AriaDatasetProcessing).

The Python module is shallowly embedded: the JSON documents it traverses become
the mutual inductive `Json`/`JArr`/`JObj`; network and filesystem effects become
explicit environment records (`RespEnv`, `DLEnv`) and a tiny filesystem state
`FS` holding the staging (`.part`) file and the destination file as optional
byte lists; Python exceptions become the `Except` monad, and the `try/except`
wrappers of the source become total functions that pattern-match the inner
`Except` result.  All definitions are translations of the source functions,
keeping their names where Lean allows it.
-/

-- A parsed JSON document: the input to `recursive_find_entries`.
-- Python dicts keep insertion order, modelled by the field list `JObj`.
mutual

inductive Json where
  | null : Json
  | boolv (b : Bool) : Json
  | num (n : Int) : Json
  | str (s : String) : Json
  | arr (xs : JArr) : Json
  | obj (fs : JObj) : Json

inductive JArr where
  | nil : JArr
  | cons (hd : Json) (tl : JArr) : JArr

inductive JObj where
  | nil : JObj
  | cons (key : String) (val : Json) (tl : JObj) : JObj

end

/-- Python `d.get(k)` on the field list of a dict (first matching key). -/
def jget0 : JObj → String → Option Json
  | .nil, _ => none
  | .cons k v tl, key => if k = key then some v else jget0 tl key

/-- Python `entry.get(k)`; `None` when the node is not a dict. -/
def jget : Json → String → Option Json
  | .obj fs, key => jget0 fs key
  | _, _ => none

/-- Python `k in d` for a dict node's fields. -/
def hasKey (fs : JObj) (key : String) : Bool :=
  (jget0 fs key).isSome

/-- Python truthiness of a JSON value (`if not url:` etc.). -/
def jsonTruthy : Json → Bool
  | .null => false
  | .boolv b => b
  | .num n => n != 0
  | .str s => s != ""
  | .arr .nil => false
  | .arr (.cons _ _) => true
  | .obj .nil => false
  | .obj (.cons _ _ _) => true

/-- `sanitize_filename`: replace the reserved path characters with an underscore. -/
def sanitize_filename (s : String) : String :=
  String.mk (s.data.map (fun c =>
    if c = '\\' || c = '/' || c = ':' || c = '*' || c = '?' ||
       c = '"' || c = '<' || c = '>' || c = '|' then '_' else c))

-- `recursive_find_entries`: yield every dict that has both a `"filename"` and a
-- `"download_url"` key, then keep walking into all child values; lists are walked
-- element by element; scalars yield nothing.  Depth-first, left-to-right.
mutual

def recursive_find_entries : Json → List Json
  | .obj fs =>
      (if hasKey fs "filename" && hasKey fs "download_url" then [Json.obj fs] else [])
        ++ findFields fs
  | .arr xs => findArr xs
  | _ => []

def findFields : JObj → List Json
  | .nil => []
  | .cons _ v tl => recursive_find_entries v ++ findFields tl

def findArr : JArr → List Json
  | .nil => []
  | .cons hd tl => recursive_find_entries hd ++ findArr tl

end

-- All nodes of a document in depth-first, left-to-right (preorder) order.
mutual

def dfsNodes : Json → List Json
  | .arr xs => Json.arr xs :: dfsArr xs
  | .obj fs => Json.obj fs :: dfsFields fs
  | j => [j]

def dfsArr : JArr → List Json
  | .nil => []
  | .cons hd tl => dfsNodes hd ++ dfsArr tl

def dfsFields : JObj → List Json
  | .nil => []
  | .cons _ v tl => dfsNodes v ++ dfsFields tl

end

/-- A node is a file-entry candidate: a dict with both marker keys. -/
def isEntry : Json → Bool
  | .obj fs => hasKey fs "filename" && hasKey fs "download_url"
  | _ => false

mutual

theorem find_spec : ∀ j : Json,
    recursive_find_entries j = (dfsNodes j).filter isEntry
  | .null => rfl
  | .boolv _ => rfl
  | .num _ => rfl
  | .str _ => rfl
  | .arr xs => by
      rw [recursive_find_entries, dfsNodes, List.filter_cons, findArr_spec xs]
      simp [isEntry]
  | .obj fs => by
      rw [recursive_find_entries, dfsNodes, List.filter_cons, findFields_spec fs]
      by_cases h : (hasKey fs "filename" && hasKey fs "download_url") = true
      · simp [isEntry, h]
      · simp [isEntry, h]

theorem findFields_spec : ∀ fs : JObj,
    findFields fs = (dfsFields fs).filter isEntry
  | .nil => rfl
  | .cons k v tl => by
      rw [findFields, dfsFields, List.filter_append, find_spec v, findFields_spec tl]

theorem findArr_spec : ∀ xs : JArr,
    findArr xs = (dfsArr xs).filter isEntry
  | .nil => rfl
  | .cons hd tl => by
      rw [findArr, dfsArr, List.filter_append, find_spec hd, findArr_spec tl]

end

/-- C2: for every finite document, `recursive_find_entries` yields exactly the
dict nodes containing both a `"filename"` and a `"download_url"` key — at any
depth, including descendants of matched nodes and siblings — in stable
depth-first, left-to-right order (it is the preorder node list filtered by the
two-key predicate), deterministically (it is a pure function). -/
theorem recursive_find_entries_spec (j : Json) :
    recursive_find_entries j = (dfsNodes j).filter isEntry :=
  find_spec j

/-- C2 witness: the claim theorem applied to a concrete nested document with a
matching dict nested inside another matching dict and a matching sibling. -/
theorem recursive_find_entries_spec_witness :
    recursive_find_entries
        (Json.arr (.cons
          (Json.obj (.cons "filename" (.str "a.vrs")
            (.cons "download_url" (.str "u")
            (.cons "inner" (Json.obj (.cons "filename" (.str "b.vrs")
              (.cons "download_url" (.str "v") .nil))) .nil))))
          (.cons (Json.obj (.cons "other" (.num 1) .nil)) .nil))) =
      (dfsNodes
        (Json.arr (.cons
          (Json.obj (.cons "filename" (.str "a.vrs")
            (.cons "download_url" (.str "u")
            (.cons "inner" (Json.obj (.cons "filename" (.str "b.vrs")
              (.cons "download_url" (.str "v") .nil))) .nil))))
          (.cons (Json.obj (.cons "other" (.num 1) .nil)) .nil)))).filter isEntry :=
  recursive_find_entries_spec _

/-- CPython sre case folding, restricted to the alphabet this pattern can
react to.  Under `re.IGNORECASE` an input character x matches a pattern letter
c iff sre's Unicode lowering of x falls in c's equivalence class; for the
letters of `\.vrs` the classes are exactly v:{v,V}, r:{r,R}, s:{s,S,ſ} (long s
U+017F), .:{.} — no other codepoint in all of Unicode matches these pattern
characters.  Mapping each input character with ASCII lower-casing extended by
ſ→s and comparing against the lower-cased pattern realises exactly that
relation; every other character is left unchanged (and can then only match
itself, e.g. the newline before `$`). -/
def sreLower (c : Char) : Char := if c = 'ſ' then 's' else c.toLower

/-- Characters of a Python string folded as the IGNORECASE regex sees them. -/
def lc (s : String) : List Char := s.data.map sreLower

/-- The pattern text of `VRS_REGEX`, lower-cased: `.vrs`. -/
def vrsPat : List Char := ['.', 'v', 'r', 's']

/-- Does the anchored pattern match the remaining (lower-cased) suffix starting
here?  It must spell out `.vrs` and then hit `$`; Python `$` (without
MULTILINE) matches at the end of the string or just before a single newline
that ends the string, so the remaining suffix is `.vrs` or `.vrs` + newline. -/
def vrsAt (cs : List Char) : Bool :=
  cs == vrsPat || cs == vrsPat ++ ['\n']

/-- `re.search`: try the anchored pattern at every start position. -/
def vrsSearchL : List Char → Bool
  | [] => false
  | c :: rest => vrsAt (c :: rest) || vrsSearchL rest

/-- `VRS_REGEX.search(s) is not None` for `VRS_REGEX = re.compile(r"\.vrs$", re.IGNORECASE)`. -/
def vrs_regex_search (s : String) : Bool := vrsSearchL (lc s)

/-- Eligibility test applied in `main`: `VRS_REGEX.search(entry.get("filename", ""))`. -/
def isEligible (name : Option String) : Bool := vrs_regex_search (name.getD "")

/-- Case-insensitive suffix match of a name against `.vrs` (the spec's
predicate, with case equivalence taken as the engine's folding `sreLower`). -/
def sfxCI (s : String) : Bool := vrsPat.isSuffixOf (lc s)

/-- Case-insensitive match of a name against `.vrs` followed by one final newline. -/
def sfxNlCI (s : String) : Bool := (vrsPat ++ ['\n']).isSuffixOf (lc s)

/-- `main`'s truncation of the eligible entries: `entries[:max_files]` when
`max_files > 0`, the whole list otherwise (so `-1` means unbounded). -/
def applyMaxFiles (maxFiles : Int) (entries : List Json) : List Json :=
  if maxFiles > 0 then entries.take maxFiles.toNat else entries

/-- `main`'s verification switch: `not no_verify and (not skip_existing)`. -/
def computeVerify (noVerify skipExisting : Bool) : Bool :=
  !noVerify && !skipExisting

/-- Python `str.isdigit` restricted to ASCII: nonempty and all digits. -/
def pyIsdigit (s : String) : Bool := !s.isEmpty && s.data.all Char.isDigit

/-- `head_request_length`: the whole body sits inside `try/except`, so a network
error (the `.error` case of the HEAD result), a missing `Content-Length` header,
or a non-numeric value all produce `None`; a numeric header is parsed. -/
def head_request_length (resp : Except String (Option String)) : Option Nat :=
  match resp with
  | .error _ => none
  | .ok none => none
  | .ok (some s) => if pyIsdigit s then some (s.toNat?.getD 0) else none

/-- On-disk state of one transfer: the staging file `dest + ".part"` and the
destination file, each `none` when absent, else the byte list it holds. -/
structure FS where
  tmp : Option (List Nat)
  dest : Option (List Nat)
deriving DecidableEq

/-- An HTTP response object as `ranged_download` consumes it: status code,
`Content-Length` header, the successive chunks `resp.read` returns, and whether
the stream raises a network error after those chunks instead of a clean EOF. -/
structure Response where
  code : Nat
  contentLength : Option String
  body : List (List Nat)
  truncated : Bool
deriving DecidableEq

/-- The effectful context of one `ranged_download` call: the `urlopen` outcome
(`.error` = the request raised), the index of the chunk whose `f.write` raises
(if any), and whether `os.replace` raises. -/
structure RespEnv where
  resp : Except String Response
  writeFail : Option Nat
  renameFail : Bool

/-- The `while True: chunk = resp.read(...)` loop.  `acc` is the staging file
content after opening (`base`); an empty chunk is EOF and breaks the loop; a
write failure or a truncated stream raises, carrying the bytes written so far. -/
def streamLoop : List (List Nat) → Bool → Option Nat → Nat → List Nat →
    Except (List Nat) (List Nat)
  | [], truncated, _, _, acc => if truncated then .error acc else .ok acc
  | c :: rest, truncated, wf, idx, acc =>
    if c = [] then .ok acc
    else if wf = some idx then .error acc
    else streamLoop rest truncated wf (idx + 1) (acc ++ c)

/-- The staging bytes present when the file is opened for the body stream.
`existing` is the staging file size (a Range header was sent iff it is
positive); the offset is discarded only when the status is neither 206 nor
200; mode `ab` keeps the staging bytes, mode `wb` truncates them. -/
def openedBase (r : Response) (t : List Nat) : List Nat :=
  if (if t.length > 0 && !(r.code == 206 || r.code == 200) then 0 else t.length) > 0
  then t else []

/-- The body of `ranged_download` up to and including `os.replace`, before the
`except` clause.  The `expected_size` inference from `Content-Length` feeds
only the progress line, an output side effect, so it does not appear in the
state.  An error carries the filesystem as the raise leaves it: staging file
kept, destination untouched. -/
def ranged_attempt (env : RespEnv) (fs0 : FS) : Except FS FS :=
  match env.resp with
  | .error _ => .error fs0
  | .ok r =>
    match streamLoop r.body r.truncated env.writeFail 0
        (openedBase r (fs0.tmp.getD [])) with
    | .error acc => .error { fs0 with tmp := some acc }
    | .ok acc =>
      if env.renameFail then .error { fs0 with tmp := some acc }
      else .ok { tmp := none, dest := some acc }

/-- `ranged_download`: the `try/except Exception` wrapper around
`ranged_attempt` — every raise is converted to `False`, success to `True`, and
the function returns the resulting filesystem state alongside. -/
def ranged_download (env : RespEnv) (fs0 : FS) : Bool × FS :=
  match ranged_attempt env fs0 with
  | .ok fs => (true, fs)
  | .error fs => (false, fs)

/-- The bytes the response actually delivers before EOF: all chunks up to the
first empty one (an empty read is how the stream signals EOF). -/
def deliveredBytes (env : RespEnv) : List Nat :=
  match env.resp with
  | .ok r => (r.body.takeWhile (fun c => c ≠ [])).flatten
  | .error _ => []

/-- The staging bytes the transfer keeps as its starting point: the prior
staging content unless the offset was discarded (status outside 206/200). -/
def keptExisting (env : RespEnv) (fs0 : FS) : List Nat :=
  match env.resp with
  | .ok r =>
    if (fs0.tmp.getD []).length > 0 && !(r.code == 206 || r.code == 200) then []
    else fs0.tmp.getD []
  | .error _ => fs0.tmp.getD []

/-- The content a fully completed transfer promotes to the destination. -/
def finalBytes (env : RespEnv) (fs0 : FS) : List Nat :=
  keptExisting env fs0 ++ deliveredBytes env

theorem streamLoop_ok (body : List (List Nat)) : ∀ (tr : Bool) (wf : Option Nat)
    (idx : Nat) (acc res : List Nat),
    streamLoop body tr wf idx acc = .ok res →
    res = acc ++ (body.takeWhile (fun c => c ≠ [])).flatten := by
  induction body with
  | nil =>
    intro tr wf idx acc res h
    cases tr
    · simp [streamLoop] at h; simp [h]
    · simp [streamLoop] at h
  | cons c rest ih =>
    intro tr wf idx acc res h
    by_cases hc : c = []
    · subst hc
      simp [streamLoop] at h
      simp [List.takeWhile, h]
    · rw [streamLoop, if_neg hc] at h
      by_cases hw : wf = some idx
      · rw [if_pos hw] at h; exact absurd h (by simp)
      · rw [if_neg hw] at h
        have := ih tr wf (idx + 1) (acc ++ c) res h
        simp only [List.takeWhile]
        rw [this]
        simp [hc, List.append_assoc]

theorem openedBase_eq_kept (env : RespEnv) (fs0 : FS) (r : Response)
    (hresp : env.resp = .ok r) :
    openedBase r (fs0.tmp.getD []) = keptExisting env fs0 := by
  have h1 : keptExisting env fs0 =
      if (fs0.tmp.getD []).length > 0 && !(r.code == 206 || r.code == 200)
      then [] else fs0.tmp.getD [] := by
    unfold keptExisting
    rw [hresp]
  rw [h1]
  unfold openedBase
  by_cases hc : ((fs0.tmp.getD []).length > 0 && !(r.code == 206 || r.code == 200)) = true
  · rw [if_pos hc, if_pos hc]
    simp
  · rw [if_neg hc, if_neg hc]
    by_cases hz : (fs0.tmp.getD []).length > 0
    · rw [if_pos hz]
    · rw [if_neg hz]
      have hzz : (fs0.tmp.getD []).length = 0 := by omega
      exact (List.length_eq_zero.mp hzz).symm

theorem ranged_download_cases (env : RespEnv) (fs0 : FS) :
    ranged_download env fs0 = (true, { tmp := none, dest := some (finalBytes env fs0) }) ∨
    ((ranged_download env fs0).1 = false ∧
     (ranged_download env fs0).2.dest = fs0.dest ∧
     (fs0.tmp.isSome = true → (ranged_download env fs0).2.tmp.isSome = true)) := by
  cases hresp : env.resp with
  | error e =>
    right
    simp [ranged_download, ranged_attempt, hresp]
  | ok r =>
    cases hstream : streamLoop r.body r.truncated env.writeFail 0
        (openedBase r (fs0.tmp.getD [])) with
    | error acc =>
      right
      simp [ranged_download, ranged_attempt, hresp, hstream]
    | ok acc =>
      by_cases hrn : env.renameFail = true
      · right
        simp [ranged_download, ranged_attempt, hresp, hstream, hrn]
      · left
        have hacc := streamLoop_ok r.body r.truncated env.writeFail 0 _ acc hstream
        have hkept := openedBase_eq_kept env fs0 r hresp
        have hdel : deliveredBytes env = (r.body.takeWhile (fun c => c ≠ [])).flatten := by
          unfold deliveredBytes; rw [hresp]
        simp only [ranged_download, ranged_attempt, hresp, hstream]
        rw [if_neg hrn]
        unfold finalBytes
        rw [hdel, hacc, hkept]

/-- C6: `ranged_download` terminates in exactly one of two ways and never
raises (it is the total `try/except` wrapper `ranged_download` around
`ranged_attempt`): on success it has atomically renamed the staging file onto
the destination (staging gone, destination holds the promoted bytes); on any
network, protocol or filesystem error it returns failure with the destination
untouched and the staging file still on disk whenever one existed. -/
theorem ranged_download_two_outcomes (env : RespEnv) (fs0 : FS) :
    ((ranged_download env fs0).1 = true →
       (ranged_download env fs0).2 = { tmp := none, dest := some (finalBytes env fs0) }) ∧
    ((ranged_download env fs0).1 = false →
       (ranged_download env fs0).2.dest = fs0.dest ∧
       (fs0.tmp.isSome = true → (ranged_download env fs0).2.tmp.isSome = true)) := by
  rcases ranged_download_cases env fs0 with h | ⟨h1, h2, h3⟩
  · constructor
    · intro _; rw [h]
    · intro hf; rw [h] at hf; exact absurd hf (by simp)
  · constructor
    · intro ht; rw [ht] at h1; exact absurd h1 (by simp)
    · intro _; exact ⟨h2, h3⟩

/-- Concrete network environment for the C6 witness: a clean 200 response with
one two-byte chunk and no filesystem failures. -/
def envC6w : RespEnv :=
  { resp := .ok { code := 200, contentLength := none, body := [[1, 2]], truncated := false },
    writeFail := none, renameFail := false }

/-- C6 witness: on the concrete succeeding transfer `envC6w` the theorem's
success branch applies and yields the promoted destination state. -/
theorem ranged_download_two_outcomes_witness :
    (ranged_download envC6w { tmp := none, dest := none }).2 =
      { tmp := none, dest := some (finalBytes envC6w { tmp := none, dest := none }) } :=
  (ranged_download_two_outcomes envC6w { tmp := none, dest := none }).1 rfl

/-- C7: the destination path is only ever populated by the atomic rename of a
fully downloaded staging file — after any `ranged_download`, the destination is
either exactly what it was before, or the call succeeded and the destination
holds the complete promoted bytes (retained resume base plus every byte the
response delivered). -/
theorem dest_only_complete (env : RespEnv) (fs0 : FS) :
    (ranged_download env fs0).2.dest = fs0.dest ∨
    ((ranged_download env fs0).1 = true ∧
     (ranged_download env fs0).2.dest = some (finalBytes env fs0)) := by
  rcases ranged_download_cases env fs0 with h | ⟨_, h2, _⟩
  · right; rw [h]; exact ⟨rfl, rfl⟩
  · left; exact h2

/-- Network environment of the C1 failing input: the staging file already holds
three bytes, so a Range request is issued, and the server answers with a full
200 body of five fresh bytes. -/
def envC1 : RespEnv :=
  { resp := .ok { code := 200, contentLength := none,
                  body := [[9, 9, 9, 9, 9]], truncated := false },
    writeFail := none, renameFail := false }

/-- Filesystem of the C1 failing input: a three-byte staging file. -/
def fsC1 : FS := { tmp := some [1, 2, 3], dest := none }

/-- C1 (code bug): with a 3-byte staging file and a server that answers the
Range request with a full 200 body, the code keeps `existing > 0` (the restart
guard is `not in (206, 200)`, which excludes 200), opens the staging file in
append mode, and promotes the corrupt concatenation of the old partial bytes
with the complete fresh body — the code's own comment says it should start
over when the server ignored the Range. -/
theorem ranged_download_200_appends :
    ranged_download envC1 fsC1 =
      (true, { tmp := none, dest := some [1, 2, 3, 9, 9, 9, 9, 9] }) ∧
    (ranged_download envC1 fsC1).2.dest ≠ some [9, 9, 9, 9, 9] := by
  exact ⟨rfl, by decide⟩

theorem vrsSearchL_iff (cs : List Char) :
    vrsSearchL cs = true ↔ (vrsPat <:+ cs ∨ (vrsPat ++ ['\n']) <:+ cs) := by
  induction cs with
  | nil => simp [vrsSearchL, vrsPat]
  | cons c rest ih =>
    simp only [vrsSearchL, vrsAt, Bool.or_eq_true, beq_iff_eq, ih,
      List.suffix_cons_iff]
    tauto

/-- C8 counterexample: the name `a.vrs\n` is eligible under the code's regex
(`$` matches just before a final newline) although it is not a
case-insensitive suffix match against `.vrs`. -/
theorem isEligible_newline_counterexample :
    isEligible (some "a.vrs\n") = true ∧ sfxCI "a.vrs\n" = false := by
  decide

/-- C8 (amended): an entry is eligible iff it has a name and the name, folded
by the engine's IGNORECASE equivalence (ASCII lower-casing plus the sre case
equivalence ſ→s), either ends with `.vrs`, or ends with `.vrs` followed by one
final newline (an artifact of the unanchored-at-newline `$` in `VRS_REGEX`);
in particular `X.VRS`, `x.vrs`, `x.Vrs` are eligible and a missing name is
ineligible. -/
theorem isEligible_iff (name : Option String) :
    isEligible name = true ↔
      ∃ s, name = some s ∧ (sfxCI s = true ∨ sfxNlCI s = true) := by
  cases name with
  | none =>
    simp [isEligible, vrs_regex_search, lc, vrsSearchL]
  | some s =>
    simp only [isEligible, Option.getD_some, vrs_regex_search, vrsSearchL_iff,
      sfxCI, sfxNlCI, Option.some.injEq]
    constructor
    · intro h
      exact ⟨s, rfl, by
        rcases h with h | h
        · exact Or.inl (List.isSuffixOf_iff_suffix.mpr h)
        · exact Or.inr (List.isSuffixOf_iff_suffix.mpr h)⟩
    · rintro ⟨t, rfl, h | h⟩
      · exact Or.inl (List.isSuffixOf_iff_suffix.mp h)
      · exact Or.inr (List.isSuffixOf_iff_suffix.mp h)

/-- C9: when `--max-files` is `N > 0` and at least `N` eligible entries were
extracted, exactly the first `N` entries in extraction order are kept for
processing (and so the remaining `M - N` are not); when it is `-1` the whole
eligible list is kept (unbounded). -/
theorem applyMaxFiles_spec (n : Int) (entries : List Json)
    (hn : 0 < n) (hm : n.toNat ≤ entries.length) :
    applyMaxFiles n entries = entries.take n.toNat ∧
    (applyMaxFiles n entries).length = n.toNat ∧
    applyMaxFiles (-1) entries = entries := by
  refine ⟨?_, ?_, ?_⟩
  · simp only [applyMaxFiles]
    rw [if_pos hn]
  · simp only [applyMaxFiles]
    rw [if_pos hn, List.length_take]
    omega
  · simp only [applyMaxFiles]
    rw [if_neg (by norm_num)]

/-- C9 witness: the claim theorem at `--max-files 2` over five eligible
entries — the first two are kept, the other three are dropped. -/
theorem applyMaxFiles_spec_witness :
    applyMaxFiles 2 [Json.null, Json.null, Json.null, Json.null, Json.null] =
      ([Json.null, Json.null, Json.null, Json.null, Json.null].take (Int.toNat 2)) ∧
    (applyMaxFiles 2 [Json.null, Json.null, Json.null, Json.null, Json.null]).length =
      Int.toNat 2 ∧
    applyMaxFiles (-1) [Json.null, Json.null, Json.null, Json.null, Json.null] =
      [Json.null, Json.null, Json.null, Json.null, Json.null] :=
  applyMaxFiles_spec 2 [Json.null, Json.null, Json.null, Json.null, Json.null]
    (by norm_num) (by simp)

/-- `download_one`'s expected-size determination: take `file_size_bytes` when
it is an `int` (Python `bool` is an `int` subclass, so JSON booleans count as
0/1), otherwise fall back to the best-effort HEAD request. -/
def expectedSizeOf (entry : Json) (headResp : Except String (Option String)) :
    Option Int :=
  match jget entry "file_size_bytes" with
  | some (.num n) => some n
  | some (.boolv b) => some (if b then 1 else 0)
  | _ => (head_request_length headResp).map (fun n => (n : Int))

/-- Is the descriptor field an `isinstance(…, int)` value? -/
def isIntField : Option Json → Bool
  | some (.num _) => true
  | some (.boolv _) => true
  | _ => false

/-- C10: when `file_size_bytes` is absent or not an integer, the expected size
falls back to the best-effort HEAD `Content-Length`; `head_request_length` is
total (in the model a total function — the whole Python body is wrapped in
`try/except … return None`): a present numeric header parses, a network error,
a missing header, or a non-numeric value each yield `None`. -/
theorem expectedSize_head_fallback (entry : Json)
    (h : Except String (Option String))
    (hf : isIntField (jget entry "file_size_bytes") = false) :
    expectedSizeOf entry h = (head_request_length h).map (fun n => (n : Int)) ∧
    (∀ s, h = .ok (some s) → pyIsdigit s = true →
        head_request_length h = some (s.toNat?.getD 0)) ∧
    (∀ e, h = .error e → head_request_length h = none) ∧
    (h = .ok none → head_request_length h = none) ∧
    (∀ s, h = .ok (some s) → pyIsdigit s = false → head_request_length h = none) := by
  refine ⟨?_, ?_, ?_, ?_, ?_⟩
  · cases hj : jget entry "file_size_bytes" with
    | none => unfold expectedSizeOf; rw [hj]
    | some v =>
      cases v with
      | num n => rw [hj] at hf; simp [isIntField] at hf
      | boolv b => rw [hj] at hf; simp [isIntField] at hf
      | null => unfold expectedSizeOf; rw [hj]
      | str s => unfold expectedSizeOf; rw [hj]
      | arr xs => unfold expectedSizeOf; rw [hj]
      | obj fs => unfold expectedSizeOf; rw [hj]
  · intro s hs hd
    subst hs
    simp [head_request_length, hd]
  · intro e he
    subst he
    rfl
  · intro hnone
    subst hnone
    rfl
  · intro s hs hd
    subst hs
    simp [head_request_length, hd]

/-- C10 witness: with no `file_size_bytes` field and a numeric HEAD header the
fallback applies (first conjunct of the theorem instantiated). -/
theorem expectedSize_head_fallback_witness :
    expectedSizeOf (Json.obj .nil) (.ok (some "42")) =
      (head_request_length (.ok (some "42"))).map (fun n => (n : Int)) :=
  (expectedSize_head_fallback (Json.obj .nil) (.ok (some "42")) (by decide)).1

/-- The observable result of one `download_one` call that returned normally:
skipped for lack of a URL, skipped as already verified, transfer failed,
transfer done without verification, or done with the two post-download
verification warnings recorded. -/
inductive Outcome where
  | skipNoUrl : Outcome
  | skipVerified : Outcome
  | failed : Outcome
  | doneNoVerify : Outcome
  | doneVerified (sizeMismatch shaMismatch : Bool) : Outcome
deriving DecidableEq

/-- The effectful context of one `download_one` call: the HEAD result (error,
or the `Content-Length` header), the filesystem at entry (destination file and
staging file for this descriptor's paths), the result of `sha1_of_file` on the
existing destination during the pre-check and after a download, whether
`os.makedirs` raises, and the network environment of the GET. -/
structure DLEnv where
  headResp : Except String (Option String)
  fs0 : FS
  shaPre : Except String String
  shaPost : Except String String
  makedirsFail : Bool
  net : RespEnv

/-- `os.path.getsize(dest_path)` in the pre-check. -/
def destSize (fs : FS) : Nat := (fs.dest.getD []).length

/-- Pre-check `size_ok`: `True` unless an expected size is known and differs. -/
def precheckSizeOk (exp : Option Int) (fs : FS) : Bool :=
  match exp with
  | some sz => (destSize fs : Int) == sz
  | none => true

/-- Pre-check `sha_ok`: `True` unless `sha1sum` is present and truthy; then the
`try` block compares digests case-insensitively, and any raise inside it (an
unreadable file, or `.lower()` on a non-string field) makes `sha_ok = False`. -/
def precheckShaOk (entry : Json) (shaPre : Except String String) : Bool :=
  match jget entry "sha1sum" with
  | some sv =>
    if jsonTruthy sv then
      match sv, shaPre with
      | .str s, .ok c => c.toLower == s.toLower
      | _, _ => false
    else true
  | none => true

/-- The tail of `download_one` from the `ranged_download` call on: a failed
transfer is the logged `[FAIL]` outcome; after a successful transfer, when
`verify` is on, the size warning is computed, and then `sha1_of_file` (NOT
inside any `try` here, unlike the pre-check) and `.lower()` on the descriptor
field may raise out of the function. -/
def doDownload (entry : Json) (verify : Bool) (env : DLEnv)
    (expected_size : Option Int) : Except String (Outcome × FS) :=
  match ranged_download env.net env.fs0 with
  | (false, fs1) => .ok (.failed, fs1)
  | (true, fs1) =>
    if verify then
      let sizeMis : Bool :=
        match expected_size with
        | some sz => !((destSize fs1 : Int) == sz)
        | none => false
      match jget entry "sha1sum" with
      | some sv =>
        if jsonTruthy sv then
          match env.shaPost with
          | .error e => .error e
          | .ok got =>
            match sv with
            | .str s => .ok (.doneVerified sizeMis (!(got.toLower == s.toLower)), fs1)
            | _ => .error "AttributeError"
        else .ok (.doneVerified sizeMis false, fs1)
      | none => .ok (.doneVerified sizeMis false, fs1)
    else .ok (.doneNoVerify, fs1)

/-- `download_one`, step for step: sanitize the filename (`re.sub` raises
`TypeError` on a non-string), skip descriptors without a truthy URL, determine
the expected size (descriptor `int` field, else HEAD), `os.makedirs` (may
raise), then — only when the destination exists AND `verify` is on — the
pre-check, returning the skip outcome when both checks pass; otherwise
transfer and post-verify via `doDownload`. -/
def download_one (entry : Json) (verify : Bool) (env : DLEnv) :
    Except String (Outcome × FS) :=
  match (jget entry "filename").getD (.str "unknown.vrs") with
  | .str fname0 =>
    let _filename := sanitize_filename fname0
    if !(jsonTruthy ((jget entry "download_url").getD .null)) then
      .ok (.skipNoUrl, env.fs0)
    else
      let expected_size := expectedSizeOf entry env.headResp
      if env.makedirsFail then .error "OSError"
      else
        if env.fs0.dest.isSome && verify
            && precheckSizeOk expected_size env.fs0
            && precheckShaOk entry env.shaPre then
          .ok (.skipVerified, env.fs0)
        else
          doDownload entry verify env expected_size
  | _ => .error "TypeError"

/-- The worker loop over the items this worker dequeues (the shared queue and
the `None` sentinel are abstracted into the item list): each item is processed
by `download_one`; `q.task_done()` sits in a `finally`, but there is no
`except`, so an exception from `download_one` ends the loop — the thread dies
and its remaining items are returned unprocessed alongside the error. -/
def worker (verify : Bool) :
    List (Json × DLEnv) → List Outcome × Option String × List (Json × DLEnv)
  | [] => ([], none, [])
  | (e, env) :: rest =>
    match download_one e verify env with
    | .ok (o, _) =>
      match worker verify rest with
      | (os, err, rem) => (o :: os, err, rem)
    | .error msg => ([], some msg, rest)

/-- Is an optional descriptor field absent or a string (the well-formed shapes
for `filename` and `sha1sum`)? -/
def strOrAbsent : Option Json → Bool
  | none => true
  | some (.str _) => true
  | some _ => false

/-- Descriptor fields that `download_one` applies string operations to are
absent or strings. -/
def entryFieldsOK (entry : Json) : Bool :=
  strOrAbsent (jget entry "filename") && strOrAbsent (jget entry "sha1sum")

/-- The per-descriptor filesystem operations outside every `try` succeed:
`os.makedirs` does not raise and the post-download `sha1_of_file` read (not
wrapped in a `try`, unlike the pre-check one) does not raise. -/
def envOK (env : DLEnv) : Bool :=
  !env.makedirsFail &&
  (match env.shaPost with
   | .ok _ => true
   | .error _ => false)

theorem doDownload_no_skip (entry : Json) (verify : Bool) (env : DLEnv)
    (exp : Option Int) (o : Outcome) (fs : FS)
    (h : doDownload entry verify env exp = .ok (o, fs)) :
    o ≠ Outcome.skipVerified := by
  intro hskip
  subst hskip
  unfold doDownload at h
  repeat' split at h
  all_goals simp_all

theorem doDownload_total (entry : Json) (verify : Bool) (env : DLEnv)
    (exp : Option Int)
    (hsha : strOrAbsent (jget entry "sha1sum") = true)
    (hpost : ∃ got, env.shaPost = .ok got) :
    ∃ o fs, doDownload entry verify env exp = .ok (o, fs) := by
  unfold doDownload
  rcases hr : ranged_download env.net env.fs0 with ⟨b, fs1⟩
  cases b
  · exact ⟨.failed, fs1, rfl⟩
  · cases verify
    · exact ⟨.doneNoVerify, fs1, by simp⟩
    · cases hjs : jget entry "sha1sum" with
      | none => exact ⟨_, _, rfl⟩
      | some sv =>
        cases sv with
        | str s =>
          by_cases hst : jsonTruthy (Json.str s) = true
          · obtain ⟨got, hg⟩ := hpost
            simp only [hst, hg, if_true]
            exact ⟨_, _, rfl⟩
          · rw [Bool.not_eq_true] at hst
            simp only [hst]
            exact ⟨_, _, rfl⟩
        | null => rw [hjs] at hsha; simp [strOrAbsent] at hsha
        | boolv b => rw [hjs] at hsha; simp [strOrAbsent] at hsha
        | num n => rw [hjs] at hsha; simp [strOrAbsent] at hsha
        | arr xs => rw [hjs] at hsha; simp [strOrAbsent] at hsha
        | obj fs2 => rw [hjs] at hsha; simp [strOrAbsent] at hsha

theorem download_one_total (entry : Json) (verify : Bool) (env : DLEnv)
    (he : entryFieldsOK entry = true) (hv : envOK env = true) :
    ∃ o fs, download_one entry verify env = .ok (o, fs) := by
  have hfn : strOrAbsent (jget entry "filename") = true := by
    simp [entryFieldsOK] at he; exact he.1
  have hsha : strOrAbsent (jget entry "sha1sum") = true := by
    simp [entryFieldsOK] at he; exact he.2
  have hmk : env.makedirsFail = false := by
    simp [envOK] at hv; exact hv.1
  have hpost : ∃ got, env.shaPost = .ok got := by
    simp [envOK] at hv
    cases hp : env.shaPost with
    | ok got => exact ⟨got, rfl⟩
    | error e => rw [hp] at hv; simp at hv
  have hf : ∃ f, (jget entry "filename").getD (.str "unknown.vrs") = Json.str f := by
    cases hj : jget entry "filename" with
    | none => exact ⟨"unknown.vrs", rfl⟩
    | some v =>
      cases v with
      | str s => exact ⟨s, rfl⟩
      | null => rw [hj] at hfn; simp [strOrAbsent] at hfn
      | boolv b => rw [hj] at hfn; simp [strOrAbsent] at hfn
      | num n => rw [hj] at hfn; simp [strOrAbsent] at hfn
      | arr xs => rw [hj] at hfn; simp [strOrAbsent] at hfn
      | obj fs2 => rw [hj] at hfn; simp [strOrAbsent] at hfn
  obtain ⟨f, hf⟩ := hf
  unfold download_one
  rw [hf]
  by_cases hurl : jsonTruthy ((jget entry "download_url").getD .null) = true
  · simp only [hurl, Bool.not_true, Bool.false_eq_true, if_false, hmk]
    by_cases hc : (env.fs0.dest.isSome && verify
        && precheckSizeOk (expectedSizeOf entry env.headResp) env.fs0
        && precheckShaOk entry env.shaPre) = true
    · simp only [hc, if_true]
      exact ⟨.skipVerified, env.fs0, by simp⟩
    · rw [Bool.not_eq_true] at hc
      simp only [hc, Bool.false_eq_true, if_false]
      exact doDownload_total entry verify env _ hsha hpost
  · rw [Bool.not_eq_true] at hurl
    simp only [hurl, Bool.not_false, if_true]
    exact ⟨.skipNoUrl, env.fs0, by simp⟩

theorem precheckSizeOk_iff (exp : Option Int) (fs : FS) :
    precheckSizeOk exp fs = true ↔
      (∀ sz : Int, exp = some sz → (destSize fs : Int) = sz) := by
  cases exp with
  | none => simp [precheckSizeOk]
  | some sz => simp [precheckSizeOk]

theorem precheckShaOk_iff (entry : Json) (shaPre : Except String String)
    (hsha : strOrAbsent (jget entry "sha1sum") = true) :
    precheckShaOk entry shaPre = true ↔
      (∀ s : String, jget entry "sha1sum" = some (.str s) → s ≠ "" →
        ∃ c, shaPre = .ok c ∧ c.toLower = s.toLower) := by
  cases hj : jget entry "sha1sum" with
  | none => simp [precheckShaOk, hj]
  | some sv =>
    cases sv with
    | str s =>
      by_cases hs : s = ""
      · subst hs
        simp [precheckShaOk, hj, jsonTruthy]
      · cases shaPre with
        | ok c => simp [precheckShaOk, hj, jsonTruthy, hs]
        | error e => simp [precheckShaOk, hj, jsonTruthy, hs]
    | null => rw [hj] at hsha; simp [strOrAbsent] at hsha
    | boolv b => rw [hj] at hsha; simp [strOrAbsent] at hsha
    | num n => rw [hj] at hsha; simp [strOrAbsent] at hsha
    | arr xs => rw [hj] at hsha; simp [strOrAbsent] at hsha
    | obj fs2 => rw [hj] at hsha; simp [strOrAbsent] at hsha

/-- C5: with verification enabled, a descriptor whose destination file already
exists is skipped (the pre-check returns with no transfer, filesystem
unchanged) iff every expectation that is present matches the on-disk file:
size equal whenever an expected size is known (descriptor field or HEAD), and
digest equal case-insensitively whenever a non-empty `sha1sum` string is
given; an absent (or Python-falsy) expectation never blocks the skip.
Hypotheses: the descriptor's `filename`/`sha1sum` fields are absent or
strings, the URL is truthy, `os.makedirs` succeeds, and the destination
exists. -/
theorem download_one_skip_iff (entry : Json) (env : DLEnv)
    (hfn : strOrAbsent (jget entry "filename") = true)
    (hurl : jsonTruthy ((jget entry "download_url").getD .null) = true)
    (hsha : strOrAbsent (jget entry "sha1sum") = true)
    (hmk : env.makedirsFail = false)
    (hdest : env.fs0.dest.isSome = true) :
    download_one entry true env = .ok (.skipVerified, env.fs0) ↔
      ((∀ sz : Int, expectedSizeOf entry env.headResp = some sz →
          (destSize env.fs0 : Int) = sz) ∧
       (∀ s : String, jget entry "sha1sum" = some (.str s) → s ≠ "" →
          ∃ c, env.shaPre = .ok c ∧ c.toLower = s.toLower)) := by
  have hf : ∃ f, (jget entry "filename").getD (.str "unknown.vrs") = Json.str f := by
    cases hj : jget entry "filename" with
    | none => exact ⟨"unknown.vrs", rfl⟩
    | some v =>
      cases v with
      | str s => exact ⟨s, rfl⟩
      | null => rw [hj] at hfn; simp [strOrAbsent] at hfn
      | boolv b => rw [hj] at hfn; simp [strOrAbsent] at hfn
      | num n => rw [hj] at hfn; simp [strOrAbsent] at hfn
      | arr xs => rw [hj] at hfn; simp [strOrAbsent] at hfn
      | obj fs2 => rw [hj] at hfn; simp [strOrAbsent] at hfn
  obtain ⟨f, hf⟩ := hf
  unfold download_one
  rw [hf]
  simp only [hurl, Bool.not_true, Bool.false_eq_true, if_false, hmk]
  by_cases hc : (precheckSizeOk (expectedSizeOf entry env.headResp) env.fs0
      && precheckShaOk entry env.shaPre) = true
  · rw [Bool.and_eq_true] at hc
    simp only [hdest, hc.1, hc.2, Bool.and_true, Bool.true_and, if_true]
    constructor
    · intro _
      exact ⟨(precheckSizeOk_iff _ _).mp hc.1, (precheckShaOk_iff _ _ hsha).mp hc.2⟩
    · intro _
      trivial
  · have hc2 : (env.fs0.dest.isSome && true
        && precheckSizeOk (expectedSizeOf entry env.headResp) env.fs0
        && precheckShaOk entry env.shaPre) = false := by
      rw [Bool.not_eq_true] at hc
      rw [Bool.and_eq_false_iff] at hc
      rcases hc with h1 | h1 <;> simp [h1]
    simp only [hc2, Bool.false_eq_true, if_false]
    constructor
    · intro hdl
      exact absurd rfl (doDownload_no_skip entry true env _ _ _ hdl)
    · intro ⟨h1, h2⟩
      exfalso
      rw [Bool.not_eq_true, Bool.and_eq_false_iff] at hc
      rcases hc with h3 | h3
      · rw [(precheckSizeOk_iff _ _).mpr h1] at h3
        exact Bool.noConfusion h3
      · rw [(precheckShaOk_iff _ _ hsha).mpr h2] at h3
        exact Bool.noConfusion h3

/-- Well-formed descriptor for the C5 witness: a name and a URL, no size and
no checksum expectations. -/
def entryC5w : Json :=
  Json.obj (.cons "filename" (.str "a.vrs") (.cons "download_url" (.str "u") .nil))

/-- Environment for the C5 witness: destination already on disk, HEAD fails
(so no expected size is known), nothing else matters for the pre-check. -/
def envC5w : DLEnv :=
  { headResp := .error "offline",
    fs0 := { tmp := none, dest := some [1, 2] },
    shaPre := .error "unused", shaPost := .error "unused",
    makedirsFail := false,
    net := { resp := .error "offline", writeFail := none, renameFail := false } }

/-- C5 witness: the claim theorem applied to `entryC5w`/`envC5w` — with no
expectation present the existing file is accepted and the call returns the
skip outcome with the filesystem unchanged. -/
theorem download_one_skip_iff_witness :
    download_one entryC5w true envC5w = .ok (.skipVerified, envC5w.fs0) :=
  (download_one_skip_iff entryC5w envC5w (by decide) (by decide) (by decide)
      rfl rfl).mpr
    ⟨fun sz h => by
        rw [(rfl : expectedSizeOf entryC5w envC5w.headResp = none)] at h
        exact Option.noConfusion h,
     fun s h _ => by
        rw [(rfl : jget entryC5w "sha1sum" = none)] at h
        exact Option.noConfusion h⟩

/-- Descriptor of the C3 failing input: a name, a URL, a declared size of 3. -/
def entryC3 : Json :=
  Json.obj (.cons "filename" (.str "a.vrs")
    (.cons "download_url" (.str "u")
    (.cons "file_size_bytes" (.num 3) .nil)))

/-- Environment of the C3 failing input: the destination file already exists
(3 bytes, matching the declared size); the server would serve a fresh 2-byte
body with status 200. -/
def envC3 : DLEnv :=
  { headResp := .ok none,
    fs0 := { tmp := none, dest := some [1, 2, 3] },
    shaPre := .error "unused", shaPost := .error "unused",
    makedirsFail := false,
    net := { resp := .ok { code := 200, contentLength := none,
                           body := [[7, 7]], truncated := false },
             writeFail := none, renameFail := false } }

/-- C3 (code bug): `--skip-existing` makes `main` compute `verify = False`,
and with `verify = False` the whole `if os.path.exists(dest_path) and verify:`
block is skipped, so `download_one` does NOT accept the existing file — it
re-downloads and overwrites it (here the 3-byte existing destination is
replaced by the freshly served 2-byte body), contradicting the flag's own
help text "Skip existing files without verifying". -/
theorem skip_existing_redownloads :
    computeVerify false true = false ∧
    download_one entryC3 (computeVerify false true) envC3 =
      .ok (.doneNoVerify, { tmp := none, dest := some [7, 7] }) := by
  exact ⟨rfl, rfl⟩

/-- Malformed descriptor: `filename` is a number, so `re.sub` in
`sanitize_filename` raises `TypeError` before anything else happens. -/
def entryC4bad : Json :=
  Json.obj (.cons "filename" (.num 3) (.cons "download_url" (.str "u") .nil))

/-- Well-formed descriptor queued behind the malformed one. -/
def entryC4good : Json :=
  Json.obj (.cons "filename" (.str "b.vrs") (.cons "download_url" (.str "u") .nil))

/-- Environment for the C4 inputs: network down (every request errors),
filesystem fine. -/
def envC4 : DLEnv :=
  { headResp := .error "offline",
    fs0 := { tmp := none, dest := none },
    shaPre := .error "unused", shaPost := .ok "",
    makedirsFail := false,
    net := { resp := .error "offline", writeFail := none, renameFail := false } }

/-- C4 counterexample: the worker body is `try: download_one(...) finally:
q.task_done()` with NO `except`, so the `TypeError` raised for a non-string
`filename` propagates, the worker loop ends, and the well-formed descriptor
still queued behind it is left unprocessed by this worker — refuting "any
error ... never terminates the worker thread, never causes remaining queued
descriptors to go unprocessed". -/
theorem worker_uncaught_typeerror :
    worker true [(entryC4bad, envC4), (entryC4good, envC4)] =
      ([], some "TypeError", [(entryC4good, envC4)]) := rfl

/-- C4 (amended): errors inside the transfer (`ranged_download` catches every
exception), inside the HEAD request, and inside the pre-check digest
comparison are converted to logged outcomes and never end the worker loop —
for any network behaviour whatsoever; but this only holds when each
descriptor's `filename`/`sha1sum` fields are absent or strings, `os.makedirs`
succeeds and the post-download `sha1_of_file` read does not raise, because
those raises are NOT caught at the worker boundary (no `except` in `worker`).
Under those conditions the worker processes its whole queue share. -/
theorem worker_processes_all (verify : Bool) (ps : List (Json × DLEnv))
    (h : ∀ p ∈ ps, entryFieldsOK p.1 = true ∧ envOK p.2 = true) :
    (worker verify ps).2.1 = none ∧ (worker verify ps).2.2 = [] := by
  induction ps with
  | nil => exact ⟨rfl, rfl⟩
  | cons p rest ih =>
    obtain ⟨e, env⟩ := p
    obtain ⟨he, hv⟩ := h _ (List.mem_cons_self _ _)
    obtain ⟨o, fs, hdl⟩ := download_one_total e verify env he hv
    have ih2 := ih (fun q hq => h q (List.mem_cons_of_mem _ hq))
    rcases hw : worker verify rest with ⟨os, err, rem⟩
    rw [hw] at ih2
    simp only [worker, hdl, hw]
    simpa using ih2

/-- C4 witness: the amended theorem applied to a single well-formed descriptor
whose network is down — the failure is logged, the worker finishes its list. -/
theorem worker_processes_all_witness :
    (worker true [(entryC4good, envC4)]).2.1 = none ∧
    (worker true [(entryC4good, envC4)]).2.2 = [] :=
  worker_processes_all true [(entryC4good, envC4)]
    (by
      intro p hp
      rw [List.mem_singleton] at hp
      subst hp
      exact ⟨by decide, by decide⟩)
